import Mathlib

/-!
Shallow embedding of the voxelio renderer sources
(`src/render-items.ts` and `src/twoD-overrides.ts`) and proofs about them.

JS string primitives (`startsWith`, `slice(n)`) are modelled over the string's
character sequence, which is the semantics the source relies on.
-/

/-- JS `s.startsWith(p)`. -/
def jsStartsWith (s p : String) : Bool :=
  p.data.isPrefixOf s.data

/-- JS `s.slice(n)`: drop the first `n` characters. -/
def jsDrop (s : String) (n : Nat) : String :=
  ⟨s.data.drop n⟩

/-- Normalized UV rectangle `[u0, v0, u1, v1]` as stored in the atlas id map. -/
structure UV where
  u0 : ℚ
  v0 : ℚ
  u1 : ℚ
  v1 : ℚ
  deriving DecidableEq, Repr

/-- The effective vertical extent chosen by `ResourceManager.loadBlockAtlas`:
`const dv2 = (du !== dv && rawId.startsWith('block/')) ? du : dv`. -/
def dvEff (rawId : String) (du dv : ℚ) : ℚ :=
  if du ≠ dv ∧ jsStartsWith rawId "block/" then du else dv

/-- One entry of the atlas id map built by `ResourceManager.loadBlockAtlas`:
`idMap[...] = [u / w, v / h, (u + du) / w, (v + dv2) / h]`,
with `w`, `h` the power-of-two canvas dimensions. -/
def loadBlockAtlasUV (rawId : String) (u v du dv w h : ℚ) : UV :=
  ⟨u / w, v / h, (u + du) / w, (v + dvEff rawId du dv) / h⟩

/-- The spec's invariant on an emitted UV rectangle:
`0 ≤ u0 < u1 ≤ 1` and `0 ≤ v0 < v1 ≤ 1`. -/
def uvRectOk (r : UV) : Prop :=
  0 ≤ r.u0 ∧ r.u0 < r.u1 ∧ r.u1 ≤ 1 ∧ 0 ≤ r.v0 ∧ r.v0 < r.v1 ∧ r.v1 ≤ 1

/-- C1: for a raw entry whose id starts with `block/` and has `du ≠ dv`, the
emitted rectangle uses `dv_eff = du`, i.e. it is
`(u/W, v/H, (u+du)/W, (v+du)/H)`; for every other entry it is
`(u/W, v/H, (u+du)/W, (v+dv)/H)`; in particular `du=16, dv=64` under
`block/lava_flow` spans 16 source pixels vertically, not 64. -/
theorem loadBlockAtlasUV_spec (rawId : String) (u v du dv w h : ℚ) :
    (jsStartsWith rawId "block/" = true → du ≠ dv →
      loadBlockAtlasUV rawId u v du dv w h = ⟨u / w, v / h, (u + du) / w, (v + du) / h⟩)
    ∧ (¬ (jsStartsWith rawId "block/" = true ∧ du ≠ dv) →
      loadBlockAtlasUV rawId u v du dv w h = ⟨u / w, v / h, (u + du) / w, (v + dv) / h⟩)
    ∧ loadBlockAtlasUV "block/lava_flow" u v 16 64 w h
        = ⟨u / w, v / h, (u + 16) / w, (v + 16) / h⟩ := by
  refine ⟨fun hpre hne => ?_, fun hnot => ?_, ?_⟩
  · simp [loadBlockAtlasUV, dvEff, hpre, hne]
  · rcases Decidable.em (du = dv) with heq | hne
    · simp [loadBlockAtlasUV, dvEff, heq]
    · have hpre : ¬ jsStartsWith rawId "block/" = true := fun hp => hnot ⟨hp, hne⟩
      simp [loadBlockAtlasUV, dvEff, hne, hpre]
  · have hpre : jsStartsWith "block/lava_flow" "block/" = true := by decide
    have hne : (16 : ℚ) ≠ 64 := by norm_num
    simp [loadBlockAtlasUV, dvEff, hpre, hne]

/-- Witness for C1 at a concrete input. -/
theorem loadBlockAtlasUV_spec_witness :
    loadBlockAtlasUV "block/x" 0 0 16 32 256 256
      = ⟨0 / 256, 0 / 256, (0 + 16) / 256, (0 + 16) / 256⟩ :=
  (loadBlockAtlasUV_spec "block/x" 0 0 16 32 256 256).1 (by decide) (by norm_num)

/-- C2 counterexample: a degenerate raw entry `(0,0,0,0)` yields a rectangle
violating `u0 < u1`, so the invariant does not hold for every UV table. -/
theorem loadBlockAtlasUV_not_always_ok :
    ¬ uvRectOk (loadBlockAtlasUV "block/a" 0 0 0 0 16 16) := by
  intro hok
  have h := hok.2.1
  simp [loadBlockAtlasUV, dvEff] at h

/-- C2 (amended): every rectangle emitted by the Atlas Builder satisfies
`0 ≤ u0 < u1 ≤ 1` and `0 ≤ v0 < v1 ≤ 1`, provided the raw entry — after the
`dv_eff` substitution — describes a non-empty region inside the canvas:
`0 ≤ u`, `0 < du`, `u+du ≤ W`, `0 ≤ v`, `0 < dv_eff`, `v+dv_eff ≤ H`. -/
theorem loadBlockAtlasUV_ok (rawId : String) (u v du dv w h : ℚ)
    (hw : 0 < w) (hh : 0 < h) (hu : 0 ≤ u) (hv : 0 ≤ v)
    (hdu : 0 < du) (huw : u + du ≤ w)
    (hdv : 0 < dvEff rawId du dv) (hvh : v + dvEff rawId du dv ≤ h) :
    uvRectOk (loadBlockAtlasUV rawId u v du dv w h) := by
  refine ⟨div_nonneg hu hw.le, ?_, ?_, div_nonneg hv hh.le, ?_, ?_⟩
  · exact (div_lt_div_iff_of_pos_right hw).2 (by linarith)
  · exact (div_le_one hw).2 huw
  · exact (div_lt_div_iff_of_pos_right hh).2 (by linarith)
  · exact (div_le_one hh).2 hvh

/-- Witness for C2's amended theorem at a concrete input. -/
theorem loadBlockAtlasUV_ok_witness :
    uvRectOk (loadBlockAtlasUV "block/stone" 0 0 16 16 256 256) :=
  loadBlockAtlasUV_ok "block/stone" 0 0 16 16 256 256
    (by norm_num) (by norm_num) (by norm_num) (by norm_num)
    (by norm_num) (by norm_num)
    (by norm_num [dvEff]) (by norm_num [dvEff])

/-! ### twoD-overrides.ts -/

def COLORS : List String := ["white", "light_gray", "gray", "black", "brown", "red", "orange", "yellow", "lime", "green", "cyan", "light_blue", "blue", "purple", "magenta", "pink"]

def COPPER_BASES : List String := ["copper_lantern", "copper_chain", "copper_door", "copper_bars", "copper_torch"]

def WAX_STATES : List String := ["", "waxed"]

def OXIDATION_STATES : List String := ["", "exposed", "weathered", "oxidized"]

def CORAL_TYPES : List String := ["tube", "horn", "fire", "brain", "bubble"]

def SAPLING_TYPES : List String := ["spruce", "oak", "birch", "pale_oak", "cherry", "dark_oak", "jungle", "acacia", "mangrove"]

def SINGLE_IDS : List String := ["warped_roots", "weeping_vines", "torchflower", "vine", "warped_fungus", "twisting_vines", "tripwire_hook", "tipped_arrow", "torch", "tinted_glass", "tall_grass", "tall_dry_grass", "sunflower", "soul_torch", "small_amethyst_bud", "short_grass", "short_dry_grass", "rose_bush", "redstone_torch", "red_tulip", "red_mushroom", "recovery_compass", "rail", "powered_rail", "poppy", "pink_tulip", "peony", "oxeye_daisy", "orange_tulip", "open_eyeblossom", "medium_amethyst_bud", "lily_pad", "lily_of_the_valley", "lilac", "lever", "large_amethyst_bud", "large_fern", "hanging_roots", "glass_pane", "frogspawn", "fern", "enchanted_golden_apple", "detector_rail", "debug_stick", "dandelion", "crimson_fungus", "crimson_roots", "cornflower", "amethyst_cluster", "allium", "activator_rail", "azure_bluet", "brown_mushroom", "bush", "cactus_flower", "clock", "cobweb", "compass", "closed_eyeblossom"]

/-- `SuffixRule.generate`: one `base_suffix` id per base. -/
def suffixRuleGenerate (bases : List String) (suffix : String) : List String :=
  bases.map (fun b => b ++ "_" ++ suffix)

/-- The id added at the base of `PrefixComboRule`'s recursion: join the chosen
non-empty tokens with `_` and prepend them to the base. -/
def comboId (tokens : List String) (base : String) : String :=
  let nonEmpty := tokens.filter (fun t => t ≠ "")
  let pre := String.intercalate "_" nonEmpty
  if pre = "" then base else pre ++ "_" ++ base

/-- The inner recursion of `PrefixComboRule.generate`: one branch per token of
the current group, accumulating the chosen tokens in order. -/
def prefixComboRecurse (base : String) : List (List String) → List String → List String
  | [], tokens => [comboId tokens base]
  | g :: gs, tokens => g.bind (fun p => prefixComboRecurse base gs (tokens ++ [p]))

/-- `PrefixComboRule.generate`: run the recursion for every base, collecting
into a set (modelled as the deduplicated list `[...out]`). -/
def prefixComboGenerate (bases : List String) (groups : List (List String)) : List String :=
  (bases.bind (fun base => prefixComboRecurse base groups [])).dedup

/-- All ways to choose one token per group, in recursion order. -/
def tokenProd : List (List String) → List (List String)
  | [] => [[]]
  | g :: gs => g.bind (fun p => (tokenProd gs).map (fun c => p :: c))

theorem prefixComboRecurse_eq (base : String) (groups : List (List String)) (tokens : List String) :
    prefixComboRecurse base groups tokens
      = (tokenProd groups).map (fun c => comboId (tokens ++ c) base) := by
  induction groups generalizing tokens with
  | nil => simp [prefixComboRecurse, tokenProd]
  | cons g gs ih =>
    simp only [prefixComboRecurse, tokenProd, ih, List.map_bind, List.map_map]
    refine List.bind_congr (fun p _ => ?_)
    simp [Function.comp, List.append_assoc]

/-- `CoralRule.generate`: four fixed derivative names per coral type. -/
def coralRuleGenerate (types : List String) : List String :=
  types.bind (fun t => [t ++ "_coral", t ++ "_coral_fan", "dead_" ++ t ++ "_coral", "dead_" ++ t ++ "_coral_fan"])

/-- `ListRule.generate`: the literal list. -/
def listRuleGenerate (ids : List String) : List String := ids

/-- `getHardcodedTwoDItemIds`: the union of every configured rule's output. -/
def getHardcodedTwoDItemIds : Finset String :=
  (suffixRuleGenerate COLORS "stained_glass_pane"
    ++ prefixComboGenerate COPPER_BASES [WAX_STATES, OXIDATION_STATES]
    ++ coralRuleGenerate CORAL_TYPES
    ++ suffixRuleGenerate SAPLING_TYPES "sapling"
    ++ listRuleGenerate SINGLE_IDS).toFinset

def RENDER_SIZE : Nat := 128

/-- `main`, line 55:
`new Set<string>([...detectedTwoDItemIds, ...getHardcodedTwoDItemIds()])`. -/
def twoDItemIds (detectedTwoDItemIds : Finset String) : Finset String :=
  detectedTwoDItemIds ∪ getHardcodedTwoDItemIds

/-- `main`, line 84: `const size = twoDItemIds.has(id) ? 16 : RENDER_SIZE`. -/
def sizeForId (twoD : Finset String) (id : String) : Nat :=
  if id ∈ twoD then 16 else RENDER_SIZE

/-- C3: the final small-sprite set is exactly detected ∪ declared, purely
additive (a declared id never removes a detected id, and every declared id is
kept), and the render-time target size is 16 for members, 128 otherwise. -/
theorem twoDItemIds_spec (detected : Finset String) (id : String) :
    twoDItemIds detected = detected ∪ getHardcodedTwoDItemIds
    ∧ detected ⊆ twoDItemIds detected
    ∧ getHardcodedTwoDItemIds ⊆ twoDItemIds detected
    ∧ sizeForId (twoDItemIds detected) id
        = if id ∈ twoDItemIds detected then 16 else 128 :=
  ⟨rfl, Finset.subset_union_left, Finset.subset_union_right, rfl⟩

/-- C5: `PrefixComboRule.generate` emits, per base, one id per element of the
Cartesian product across all groups (non-empty chosen tokens joined with `_`
and prepended to the base, the bare base when all chosen tokens are empty),
collapsed to a set; and the `copper_door` instance yields exactly 8 distinct
ids including the four named ones. -/
theorem prefixComboGenerate_spec :
    (∀ bases groups x, x ∈ prefixComboGenerate bases groups ↔
      ∃ base ∈ bases, ∃ c ∈ tokenProd groups, comboId c base = x)
    ∧ (prefixComboGenerate ["copper_door"]
        [["", "waxed"], ["", "exposed", "weathered", "oxidized"]]).toFinset.card = 8
    ∧ "copper_door" ∈ prefixComboGenerate ["copper_door"]
        [["", "waxed"], ["", "exposed", "weathered", "oxidized"]]
    ∧ "waxed_copper_door" ∈ prefixComboGenerate ["copper_door"]
        [["", "waxed"], ["", "exposed", "weathered", "oxidized"]]
    ∧ "exposed_copper_door" ∈ prefixComboGenerate ["copper_door"]
        [["", "waxed"], ["", "exposed", "weathered", "oxidized"]]
    ∧ "waxed_oxidized_copper_door" ∈ prefixComboGenerate ["copper_door"]
        [["", "waxed"], ["", "exposed", "weathered", "oxidized"]] := by
  refine ⟨fun bases groups x => ?_, by decide, by decide, by decide, by decide, by decide⟩
  simp [prefixComboGenerate, List.mem_dedup, List.mem_bind, prefixComboRecurse_eq, List.mem_map]

/-! ### fetchTwoDItemIds (render-items.ts, detection pass) -/

/-- Loop body of `fetchTwoDItemIds`: if the texture path starts with `item/`,
strip that prefix and add the remainder when it is non-empty. -/
def fetchTwoDStep (twoD : Finset String) (tex : String) : Finset String :=
  if jsStartsWith tex "item/" then
    let id := jsDrop tex ("item/").length
    if id ≠ "" then insert id twoD else twoD
  else twoD

/-- `fetchTwoDItemIds`: scan all registered texture paths. -/
def fetchTwoDItemIds (textures : List String) : Finset String :=
  textures.foldl fetchTwoDStep ∅

theorem string_append_left_cancel {s t t' : String} (h : s ++ t = s ++ t') : t = t' := by
  apply String.ext
  have hd := congrArg String.data h
  rw [String.data_append, String.data_append] at hd
  exact List.append_cancel_left hd

/-- A texture path starts with `item/` and drops to `id` exactly when it is
the literal concatenation `"item/" ++ id`. -/
theorem jsStartsWith_item_iff (tex id : String) :
    (jsStartsWith tex "item/" = true ∧ jsDrop tex ("item/").length = id)
      ↔ tex = "item/" ++ id := by
  constructor
  · rintro ⟨hpre, hdrop⟩
    rw [jsStartsWith] at hpre
    obtain ⟨t, ht⟩ := List.isPrefixOf_iff_prefix.mp hpre
    apply String.ext
    rw [String.data_append, ← hdrop]
    have hid : (jsDrop tex ("item/").length).data = tex.data.drop (("item/" : String).data.length) := rfl
    rw [hid, ← ht, List.drop_left]
  · rintro rfl
    constructor
    · rw [jsStartsWith, String.data_append]
      exact List.isPrefixOf_iff_prefix.mpr (List.prefix_append _ _)
    · apply String.ext
      show (("item/" ++ id : String)).data.drop (("item/" : String).data.length) = id.data
      rw [String.data_append, List.drop_left]

theorem mem_fetchTwoDItemIds_foldl (textures : List String) (acc : Finset String) (id : String) :
    id ∈ textures.foldl fetchTwoDStep acc
      ↔ id ∈ acc ∨ (id ≠ "" ∧ ("item/" ++ id) ∈ textures) := by
  induction textures generalizing acc with
  | nil => simp
  | cons tex rest ih =>
    rw [List.foldl_cons, ih]
    by_cases hs : jsStartsWith tex "item/" = true
    · have htex : tex = "item/" ++ jsDrop tex ("item/").length :=
        (jsStartsWith_item_iff tex _).mp ⟨hs, rfl⟩
      by_cases hd : jsDrop tex ("item/").length = ""
      · have hstep : fetchTwoDStep acc tex = acc := by simp [fetchTwoDStep, hs, hd]
        rw [hstep]
        constructor
        · rintro (h | ⟨hne, hmem⟩)
          · exact Or.inl h
          · exact Or.inr ⟨hne, List.mem_cons_of_mem _ hmem⟩
        · rintro (h | ⟨hne, hmem⟩)
          · exact Or.inl h
          · rcases List.mem_cons.mp hmem with heq | hmem
            · exfalso
              apply hne
              have h2 : ("item/" : String) ++ id = "item/" ++ "" := by
                rw [heq, htex, hd]
              exact string_append_left_cancel h2
            · exact Or.inr ⟨hne, hmem⟩
      · have hstep : fetchTwoDStep acc tex = insert (jsDrop tex ("item/").length) acc := by
          simp [fetchTwoDStep, hs, hd]
        rw [hstep, Finset.mem_insert]
        constructor
        · rintro ((heq | h) | ⟨hne, hmem⟩)
          · refine Or.inr ⟨?_, ?_⟩
            · rw [heq]; exact hd
            · refine List.mem_cons.mpr (Or.inl ?_)
              rw [heq]; exact htex.symm
          · exact Or.inl h
          · exact Or.inr ⟨hne, List.mem_cons_of_mem _ hmem⟩
        · rintro (h | ⟨hne, hmem⟩)
          · exact Or.inl (Or.inr h)
          · rcases List.mem_cons.mp hmem with heq | hmem
            · exact Or.inl (Or.inl (string_append_left_cancel (heq.trans htex)))
            · exact Or.inr ⟨hne, hmem⟩
    · have hstep : fetchTwoDStep acc tex = acc := by simp [fetchTwoDStep, hs]
      rw [hstep]
      have htex : ∀ i : String, tex ≠ "item/" ++ i := by
        intro i hi
        exact hs ((jsStartsWith_item_iff tex i).mpr hi).1
      constructor
      · rintro (h | ⟨hne, hmem⟩)
        · exact Or.inl h
        · exact Or.inr ⟨hne, List.mem_cons_of_mem _ hmem⟩
      · rintro (h | ⟨hne, hmem⟩)
        · exact Or.inl h
        · rcases List.mem_cons.mp hmem with heq | hmem
          · exact absurd heq.symm (htex id)
          · exact Or.inr ⟨hne, hmem⟩

/-- C4 counterexample: a nested texture path (`item/a/b`, not directly under
the prefix) IS detected by the code, as the id `a/b`. -/
theorem fetchTwoDItemIds_nested_detected :
    "a/b" ∈ fetchTwoDItemIds ["item/a/b"] := by decide

/-- C4 (amended): the detection pass produces exactly the set of non-empty
remainders of texture paths under the `item/` prefix — any path under that
prefix contributes, including nested ones (`item/a/b` yields `a/b`); paths not
under the prefix contribute nothing. -/
theorem fetchTwoDItemIds_spec (textures : List String) (id : String) :
    id ∈ fetchTwoDItemIds textures ↔ id ≠ "" ∧ ("item/" ++ id) ∈ textures := by
  rw [fetchTwoDItemIds, mem_fetchTwoDItemIds_foldl]
  simp

/-! ### jsonToNbt (render-items.ts) -/

/-- A raw component value as dispatched on by `jsonToNbt`. Numbers carry a
rational value, `Number.isInteger` being integrality; `other` stands for
`null`/`undefined`/unrecognized values. -/
inductive RawValue where
  | str (s : String)
  | num (q : ℚ)
  | bool (b : Bool)
  | arr (vs : List RawValue)
  | obj (kvs : List (String × RawValue))
  | other
  deriving Repr

/-- The deepslate tag constructors used by `jsonToNbt`. -/
inductive NbtTag where
  | string (s : String)
  | int (n : ℤ)
  | double (q : ℚ)
  | byte (n : ℤ)
  | list (ts : List NbtTag)
  | compound (kvs : List (String × NbtTag))
  deriving Repr

mutual

/-- `jsonToNbt`, in the source's branch order: string; number (integral →
`NbtInt`, otherwise `NbtDouble`); boolean → `NbtByte(1|0)`; array → `NbtList`
of converted elements; object → `NbtCompound` of converted entries; anything
else → `NbtByte(0)`. -/
def jsonToNbt : RawValue → NbtTag
  | .str s => .string s
  | .num q => if q.den = 1 then .int q.num else .double q
  | .bool b => .byte (if b then 1 else 0)
  | .arr vs => .list (jsonToNbtList vs)
  | .obj kvs => .compound (jsonToNbtPairs kvs)
  | .other => .byte 0

/-- Elementwise conversion of `value.map(jsonToNbt)`. -/
def jsonToNbtList : List RawValue → List NbtTag
  | [] => []
  | v :: vs => jsonToNbt v :: jsonToNbtList vs

/-- Entrywise conversion of `Object.entries(value).map(([k, v]) => [k, jsonToNbt v])`. -/
def jsonToNbtPairs : List (String × RawValue) → List (String × NbtTag)
  | [] => []
  | (k, v) :: kvs => (k, jsonToNbt v) :: jsonToNbtPairs kvs

end

theorem jsonToNbtList_eq_map (vs : List RawValue) :
    jsonToNbtList vs = vs.map jsonToNbt := by
  induction vs with
  | nil => rfl
  | cons v vs ih => simp [jsonToNbtList, ih]

theorem jsonToNbtPairs_eq_map (kvs : List (String × RawValue)) :
    jsonToNbtPairs kvs = kvs.map (fun kv => (kv.1, jsonToNbt kv.2)) := by
  induction kvs with
  | nil => rfl
  | cons kv kvs ih => cases kv; simp [jsonToNbtPairs, ih]

/-- C6: the conversion is total and returns a string tag for strings, an
integer tag for integral numbers, a double tag for non-integral numbers, a
byte tag 1/0 for booleans, an order-preserving list of converted tags for
arrays, an order-preserving mapping of converted tags for objects, and byte 0
for anything else — never an error; and the spec's example converts with key
order preserved. -/
theorem jsonToNbt_spec :
    (∀ s, jsonToNbt (.str s) = .string s)
    ∧ (∀ q : ℚ, q.den = 1 → jsonToNbt (.num q) = .int q.num)
    ∧ (∀ q : ℚ, q.den ≠ 1 → jsonToNbt (.num q) = .double q)
    ∧ (jsonToNbt (.bool true) = .byte 1 ∧ jsonToNbt (.bool false) = .byte 0)
    ∧ (∀ vs, jsonToNbt (.arr vs) = .list (vs.map jsonToNbt))
    ∧ (∀ kvs, jsonToNbt (.obj kvs) = .compound (kvs.map (fun kv => (kv.1, jsonToNbt kv.2))))
    ∧ jsonToNbt .other = .byte 0
    ∧ jsonToNbt (.obj [("max_stack_size", .num 64), ("rarity", .str "common"),
          ("unbreakable", .obj [])])
        = .compound [("max_stack_size", .int 64), ("rarity", .string "common"),
          ("unbreakable", .compound [])] := by
  refine ⟨fun s => rfl, fun q hq => ?_, fun q hq => ?_, ⟨rfl, rfl⟩,
    fun vs => ?_, fun kvs => ?_, rfl, ?_⟩
  · simp [jsonToNbt, hq]
  · simp [jsonToNbt, hq]
  · simp [jsonToNbt, jsonToNbtList_eq_map]
  · simp [jsonToNbt, jsonToNbtPairs_eq_map]
  · simp [jsonToNbt, jsonToNbtPairs, jsonToNbtList]

/-- Witness for C6 at concrete inputs: 64 is integral, 1/2 is not. -/
theorem jsonToNbt_spec_witness :
    (64 : ℚ).den = 1 ∧ ((1 : ℚ)/2).den ≠ 1
    ∧ jsonToNbt (.num 64) = .int (64 : ℚ).num
    ∧ jsonToNbt (.num (1/2)) = .double (1/2) :=
  ⟨by norm_num, by norm_num, jsonToNbt_spec.2.1 64 (by norm_num),
    jsonToNbt_spec.2.2.1 (1/2) (by norm_num)⟩

/-! ### flipYAxis (render-items.ts) -/

def writeList (a : Array Nat) (start : Nat) : List Nat → Array Nat
  | [] => a
  | v :: vs => writeList (a.setD start v) (start + 1) vs

theorem size_writeList (l : List Nat) (a : Array Nat) (start : Nat) :
    (writeList a start l).size = a.size := by
  induction l generalizing a start with
  | nil => rfl
  | cons v vs ih => rw [writeList, ih, Array.size_setD]

theorem getElem?_setD_ne (a : Array Nat) (i j v : Nat) (h : j ≠ i) :
    (a.setD i v)[j]? = a[j]? := by
  unfold Array.setD
  split
  · next hi => exact Array.getElem?_set_ne a ⟨i, hi⟩ v (fun he => h he.symm)
  · rfl

theorem getElem?_setD_self (a : Array Nat) (i v : Nat) (hi : i < a.size) :
    (a.setD i v)[i]? = some v := by
  unfold Array.setD
  split
  · next h2 => exact Array.getElem?_set_eq a ⟨i, h2⟩ v
  · next h2 => exact absurd hi h2

theorem getElem?_writeList_out (l : List Nat) (a : Array Nat) (start k : Nat)
    (hk : k < start ∨ start + l.length ≤ k) :
    (writeList a start l)[k]? = a[k]? := by
  induction l generalizing a start with
  | nil => rfl
  | cons v vs ih =>
    rw [writeList, ih (a.setD start v) (start + 1) (by simp at hk ⊢; omega)]
    exact getElem?_setD_ne a start k v (by simp at hk; omega)

theorem getElem?_writeList_mem (l : List Nat) (a : Array Nat) (start j : Nat)
    (hj : j < l.length) (hs : start + l.length ≤ a.size) :
    (writeList a start l)[start + j]? = l[j]? := by
  induction l generalizing a start j with
  | nil => simp at hj
  | cons v vs ih =>
    rw [writeList]
    cases j with
    | zero =>
      have h0 : start + 0 = start := rfl
      rw [h0,
        getElem?_writeList_out vs (a.setD start v) (start + 1) start (Or.inl (by omega)),
        getElem?_setD_self a start v (by simp at hs; omega)]
      simp
    | succ j =>
      have hidx : start + (j + 1) = (start + 1) + j := by omega
      rw [hidx, ih (a.setD start v) (start + 1) j (by simpa using hj)
        (by rw [Array.size_setD]; simp at hs; omega)]
      simp

/-- Loop body of `flipYAxis` for a given `row`, with `bpr` the
`bytesPerRow = width * 4`: copy the source row into destination row
`height - row - 1`. -/
def flipWriteRow (data : Array Nat) (bpr height : Nat) (result : Array Nat) (row : Nat) : Array Nat :=
  writeList result ((height - row - 1) * bpr)
    (data.extract (row * bpr) (row * bpr + bpr)).toList

/-- `flipYAxis`: rows of `4 * width` bytes are copied as contiguous blocks
into a zero-initialized buffer of the same length, row `row` going to row
`height - row - 1`. -/
def flipYAxis (data : Array Nat) (width height : Nat) : Array Nat :=
  (List.range height).foldl (flipWriteRow data (width * 4) height) (mkArray data.size 0)

theorem size_foldl_flipWriteRow (data : Array Nat) (bpr height : Nat)
    (L : List Nat) (res : Array Nat) :
    (L.foldl (flipWriteRow data bpr height) res).size = res.size := by
  induction L generalizing res with
  | nil => rfl
  | cons r L ih => rw [List.foldl_cons, ih, flipWriteRow, size_writeList]

theorem size_flipYAxis (data : Array Nat) (width height : Nat) :
    (flipYAxis data width height).size = data.size := by
  rw [flipYAxis, size_foldl_flipWriteRow, Array.size_mkArray]

theorem toList_length_extract (data : Array Nat) (s e : Nat) :
    (data.extract s e).toList.length = min e data.size - s := by
  rw [Array.length_toList, Array.size_extract]

theorem getElem?_foldl_flipWriteRow_out (data : Array Nat) (bpr height : Nat)
    (L : List Nat) (res : Array Nat) (k : Nat)
    (hk : ∀ row ∈ L, k < (height - row - 1) * bpr ∨
      (height - row - 1) * bpr + (data.extract (row * bpr) (row * bpr + bpr)).toList.length ≤ k) :
    (L.foldl (flipWriteRow data bpr height) res)[k]? = res[k]? := by
  induction L generalizing res with
  | nil => rfl
  | cons r L ih =>
    rw [List.foldl_cons, ih _ (fun row hr => hk row (List.mem_cons_of_mem _ hr)),
      flipWriteRow, getElem?_writeList_out _ _ _ _ (hk r (List.mem_cons_self _ _))]

theorem flipYAxis_getElem? (data : Array Nat) (width height : Nat)
    (hsize : data.size = width * 4 * height) (r i : Nat)
    (hr : r < height) (hi : i < width * 4) :
    (flipYAxis data width height)[r * (width * 4) + i]?
      = data[(height - 1 - r) * (width * 4) + i]? := by
  set bpr := width * 4 with hbpr
  set row := height - 1 - r with hrowdef
  have hrow_lt : row < height := by omega
  have hrowr : height - row - 1 = r := by omega
  have hextract_len : ∀ row2 : Nat, row2 < height →
      (data.extract (row2 * bpr) (row2 * bpr + bpr)).toList.length = bpr := by
    intro row2 h2
    rw [Array.length_toList, Array.size_extract, hsize]
    have hle : (row2 + 1) * bpr ≤ height * bpr := mul_le_mul_right' h2 bpr
    have h3 : row2 * bpr + bpr = (row2 + 1) * bpr := by ring
    have h4 : bpr * height = height * bpr := Nat.mul_comm _ _
    omega
  have hsplit : List.range height
      = List.range' 0 row ++ row :: List.range' (row + 1) (height - row - 1) := by
    rw [List.range_eq_range']
    have h1 : List.range' 0 row ++ List.range' (0 + 1 * row) (height - row) 1
        = List.range' 0 (height - row + row) 1 := List.range'_append 0 row (height - row) 1
    have h2 : height - row + row = height := by omega
    have h3 : height - row = (height - row - 1) + 1 := by omega
    rw [h2] at h1
    rw [← h1, h3, List.range'_succ]
    norm_num
  rw [flipYAxis, hsplit, List.foldl_append, List.foldl_cons]
  set A1 := (List.range' 0 row).foldl (flipWriteRow data bpr height) (mkArray data.size 0) with hA1
  have hsz1 : A1.size = data.size := by
    rw [hA1, size_foldl_flipWriteRow, Array.size_mkArray]
  rw [getElem?_foldl_flipWriteRow_out data bpr height _ _ _ ?hout]
  case hout =>
    intro row2 hmem
    rw [List.mem_range'] at hmem
    obtain ⟨t, ht, hrow2⟩ := hmem
    right
    rw [hextract_len row2 (by omega)]
    have hle : (height - row2) * bpr ≤ r * bpr := mul_le_mul_right' (by omega) bpr
    have h5 : (height - row2 - 1) * bpr + bpr = (height - row2) * bpr := by
      have : height - row2 - 1 + 1 = height - row2 := by omega
      calc (height - row2 - 1) * bpr + bpr = (height - row2 - 1 + 1) * bpr := by ring
        _ = (height - row2) * bpr := by rw [this]
    omega
  rw [flipWriteRow, hrowr]
  have hrowsz : row * bpr + bpr ≤ data.size := by
    have hle : (row + 1) * bpr ≤ height * bpr := mul_le_mul_right' hrow_lt bpr
    have h3 : row * bpr + bpr = (row + 1) * bpr := by ring
    have h4 : bpr * height = height * bpr := Nat.mul_comm _ _
    omega
  have hrsz : r * bpr + bpr ≤ data.size := by
    have hle : (r + 1) * bpr ≤ height * bpr := mul_le_mul_right' hr bpr
    have h3 : r * bpr + bpr = (r + 1) * bpr := by ring
    have h4 : bpr * height = height * bpr := Nat.mul_comm _ _
    omega
  have hs : r * bpr + (data.extract (row * bpr) (row * bpr + bpr)).toList.length ≤ A1.size := by
    rw [hextract_len row hrow_lt, hsz1]
    exact hrsz
  rw [getElem?_writeList_mem _ _ _ i (by rw [hextract_len row hrow_lt]; exact hi) hs]
  have hi_len : i < (data.extract (row * bpr) (row * bpr + bpr)).toList.length := by
    rw [hextract_len row hrow_lt]; exact hi
  rw [List.getElem?_eq_getElem hi_len]
  have hi_arr : i < (data.extract (row * bpr) (row * bpr + bpr)).size := by
    rw [← Array.length_toList]; exact hi_len
  rw [Array.getElem_toList hi_arr, Array.getElem_extract hi_arr,
    Array.getElem?_eq_getElem (show row * bpr + i < data.size by omega)]

/-- C7: for an RGBA8 buffer of length `width*height*4`, the flip returns a
buffer of the same length in which output row `r` equals input row
`height-1-r` byte for byte (rows copied as contiguous `4*width`-byte blocks,
byte order inside a row unchanged). -/
theorem flipYAxis_spec (data : Array Nat) (width height : Nat)
    (hsize : data.size = width * 4 * height) :
    (flipYAxis data width height).size = data.size
    ∧ ∀ r i, r < height → i < width * 4 →
      (flipYAxis data width height).getD (r * (width * 4) + i) 0
        = data.getD ((height - 1 - r) * (width * 4) + i) 0 := by
  refine ⟨size_flipYAxis data width height, fun r i hr hi => ?_⟩
  rw [Array.getD_eq_get?, Array.getD_eq_get?,
    flipYAxis_getElem? data width height hsize r i hr hi]

/-- Witness for C7: a 2-row, 2-pixel buffer, output row 0 byte 3 equals
input row 1 byte 3. -/
theorem flipYAxis_spec_witness :
    ((List.range 16).toArray.size = 2 * 4 * 2)
    ∧ (flipYAxis (List.range 16).toArray 2 2).getD (0 * (2 * 4) + 3) 0
        = (List.range 16).toArray.getD ((2 - 1 - 0) * (2 * 4) + 3) 0 :=
  ⟨by decide, (flipYAxis_spec (List.range 16).toArray 2 2 (by decide)).2 0 3 (by decide) (by decide)⟩

/-- C10: the vertical flip is an involution — applying it twice with the
same width and height returns the original buffer byte for byte. -/
theorem flipYAxis_involution (data : Array Nat) (width height : Nat)
    (hsize : data.size = width * 4 * height) :
    flipYAxis (flipYAxis data width height) width height = data := by
  apply Array.ext
  · rw [size_flipYAxis, size_flipYAxis]
  · intro k hk1 hk2
    have hsz2 : (flipYAxis data width height).size = width * 4 * height := by
      rw [size_flipYAxis]; exact hsize
    have hbpr : 0 < width * 4 := by
      by_contra h0
      have hz : width * 4 = 0 := by omega
      have hzero : data.size = 0 := by rw [hsize, hz, Nat.zero_mul]
      omega
    obtain ⟨q, m, hr, hi, hk_decomp⟩ :
        ∃ q m, q < height ∧ m < width * 4 ∧ q * (width * 4) + m = k :=
      ⟨k / (width * 4), k % (width * 4),
        Nat.div_lt_of_lt_mul (by rw [← hsize]; exact hk2),
        Nat.mod_lt _ hbpr,
        by rw [Nat.mul_comm]; exact Nat.div_add_mod k (width * 4)⟩
    have h3 : height - 1 - (height - 1 - q) = q := by omega
    have hchain : (flipYAxis (flipYAxis data width height) width height)[k]? = data[k]? := by
      conv_lhs => rw [← hk_decomp]
      conv_rhs => rw [← hk_decomp]
      rw [flipYAxis_getElem? (flipYAxis data width height) width height hsz2
          q m hr hi,
        flipYAxis_getElem? data width height hsize
          (height - 1 - q) m (by omega) hi,
        h3]
    rw [Array.getElem?_eq_getElem hk1, Array.getElem?_eq_getElem hk2] at hchain
    exact Option.some.inj hchain

/-- Witness for C10 on a concrete 2x2 RGBA buffer. -/
theorem flipYAxis_involution_witness :
    flipYAxis (flipYAxis ((List.range 16).toArray) 2 2) 2 2 = (List.range 16).toArray :=
  flipYAxis_involution _ 2 2 (by decide)

/-! ### main render loop and mergeHardcodedIcons (render-items.ts) -/

/-- Terminal outcome of one candidate id in `main`'s loop. -/
inductive Outcome where
  | skippedNoModel
  | skippedExists
  | succeeded
  | failed
  deriving DecidableEq, Repr

/-- The collaborators `main`'s loop consults per id: whether the Resource
Graph holds an `ItemModel` for the id, and the render/write pipeline for the
id (everything inside the `try` block that can throw, as an `Except`). -/
structure RenderEnv where
  hasItemModel : String → Bool
  renderItemToPng : String → Except String (List Nat)

/-- The output directory's contents: path → file bytes. -/
def FS : Type := String → Option (List Nat)

/-- `path.join(outputDir, id + '.png')`. -/
def outPath (id : String) : String := "output/" ++ id ++ ".png"

/-- One iteration of `main`'s loop: skip when there is no item model
(checked first); skip when the output file already exists (`access`
succeeds); otherwise render and write, a throw being caught and logged as a
failure. -/
def processId (env : RenderEnv) (fs : FS) (id : String) : FS × Outcome :=
  if env.hasItemModel id = false then (fs, .skippedNoModel)
  else if (fs (outPath id)).isSome then (fs, .skippedExists)
  else match env.renderItemToPng id with
    | .ok png => (fun p => if p = outPath id then some png else fs p, .succeeded)
    | .error _ => (fs, .failed)

/-- `main`'s loop over the registry list in order, threading the output
directory and recording each id's terminal outcome. -/
def runLoop (env : RenderEnv) (fs : FS) : List String → FS × List Outcome
  | [] => (fs, [])
  | id :: ids =>
    let r1 := processId env fs id
    let r2 := runLoop env r1.1 ids
    (r2.1, r1.2 :: r2.2)

theorem string_append_right_cancel {s t t' : String} (h : t ++ s = t' ++ s) : t = t' := by
  apply String.ext
  have hd := congrArg String.data h
  rw [String.data_append, String.data_append] at hd
  exact List.append_cancel_right hd

theorem outPath_injective {a b : String} (h : outPath a = outPath b) : a = b := by
  unfold outPath at h
  exact string_append_left_cancel (string_append_right_cancel h)

theorem runLoop_cons (env : RenderEnv) (fs : FS) (id : String) (ids : List String) :
    runLoop env fs (id :: ids)
      = ((runLoop env (processId env fs id).1 ids).1,
        (processId env fs id).2 :: (runLoop env (processId env fs id).1 ids).2) := rfl

theorem runLoop_length (env : RenderEnv) (fs : FS) (ids : List String) :
    (runLoop env fs ids).2.length = ids.length := by
  induction ids generalizing fs with
  | nil => rfl
  | cons id ids ih => simp [runLoop, ih]

theorem runLoop_noModel (env : RenderEnv) (fs : FS) (ids : List String)
    (i : Nat) (h : i < ids.length) (hm : env.hasItemModel (ids.get ⟨i, h⟩) = false) :
    (runLoop env fs ids).2.getD i .failed = .skippedNoModel := by
  induction ids generalizing fs i with
  | nil => simp at h
  | cons id ids ih =>
    cases i with
    | zero =>
      simp at hm
      simp [runLoop, processId, hm]
    | succ i =>
      simp at hm
      rw [runLoop_cons, List.getD_cons_succ]
      exact ih _ _ (by simpa using h) hm

theorem processId_fs_other (env : RenderEnv) (fs : FS) (id p : String) (hp : p ≠ outPath id) :
    (processId env fs id).1 p = fs p := by
  by_cases h1 : env.hasItemModel id = false
  · simp [processId, h1]
  · by_cases h2 : (fs (outPath id)).isSome
    · simp [processId, h1, h2]
    · cases henv : env.renderItemToPng id with
      | ok png => simp [processId, h1, h2, henv, hp]
      | error e => simp [processId, h1, h2, henv]

theorem processId_fs_eq_of_isSome (env : RenderEnv) (fs : FS) (id : String)
    (hex : (fs (outPath id)).isSome = true) : (processId env fs id).1 = fs := by
  by_cases h1 : env.hasItemModel id = false
  · simp [processId, h1]
  · simp [processId, h1, hex]

theorem processId_congr (env env' : RenderEnv) (fs fs' : FS) (id x : String)
    (hmodel : env'.hasItemModel = env.hasItemModel)
    (hrender : env'.renderItemToPng id = env.renderItemToPng id)
    (hfs : ∀ p, p ≠ outPath x → fs' p = fs p)
    (hid : id ≠ x) :
    (processId env' fs' id).2 = (processId env fs id).2
    ∧ ∀ p, p ≠ outPath x → (processId env' fs' id).1 p = (processId env fs id).1 p := by
  have hout : outPath id ≠ outPath x := fun he => hid (outPath_injective he)
  have hfsid : fs' (outPath id) = fs (outPath id) := hfs _ hout
  by_cases h1 : env.hasItemModel id = false
  · have h1' : env'.hasItemModel id = false := by rw [hmodel]; exact h1
    refine ⟨by simp [processId, h1, h1'], fun p hp => ?_⟩
    simp [processId, h1, h1']
    exact hfs p hp
  · have h1' : ¬ env'.hasItemModel id = false := by rw [hmodel]; exact h1
    by_cases h2 : (fs (outPath id)).isSome
    · have h2' : (fs' (outPath id)).isSome := by rw [hfsid]; exact h2
      refine ⟨by simp [processId, h1, h1', h2, h2'], fun p hp => ?_⟩
      simp [processId, h1, h1', h2, h2']
      exact hfs p hp
    · have h2' : ¬ (fs' (outPath id)).isSome := by rw [hfsid]; exact h2
      cases henv : env.renderItemToPng id with
      | ok png =>
        have henv' : env'.renderItemToPng id = .ok png := by rw [hrender]; exact henv
        refine ⟨by simp [processId, h1, h1', h2, h2', henv, henv'], fun p hp => ?_⟩
        simp [processId, h1, h1', h2, h2', henv, henv']
        by_cases hpo : p = outPath id
        · simp [hpo]
        · simp [hpo]
          exact hfs p hp
      | error e =>
        have henv' : env'.renderItemToPng id = .error e := by rw [hrender]; exact henv
        refine ⟨by simp [processId, h1, h1', h2, h2', henv, henv'], fun p hp => ?_⟩
        simp [processId, h1, h1', h2, h2', henv, henv']
        exact hfs p hp

theorem runLoop_isolated (env env' : RenderEnv) (x : String)
    (hmodel : env'.hasItemModel = env.hasItemModel)
    (hother : ∀ id, id ≠ x → env'.renderItemToPng id = env.renderItemToPng id)
    (ids : List String) (fs fs' : FS)
    (hfs : ∀ p, p ≠ outPath x → fs' p = fs p) :
    (∀ p, p ≠ outPath x → (runLoop env' fs' ids).1 p = (runLoop env fs ids).1 p)
    ∧ ∀ i, i < ids.length → ids.getD i "" ≠ x →
        (runLoop env' fs' ids).2.getD i .failed = (runLoop env fs ids).2.getD i .failed := by
  induction ids generalizing fs fs' with
  | nil => exact ⟨fun p hp => hfs p hp, fun i hi => by simp at hi⟩
  | cons id ids ih =>
    by_cases hx : id = x
    · subst hx
      have hstep : ∀ p, p ≠ outPath id → (processId env' fs' id).1 p = (processId env fs id).1 p := by
        intro p hp
        rw [processId_fs_other env' fs' id p hp, processId_fs_other env fs id p hp]
        exact hfs p hp
      obtain ⟨hfs2, hout2⟩ := ih (processId env fs id).1 (processId env' fs' id).1 hstep
      refine ⟨fun p hp => ?_, fun i hi hne => ?_⟩
      · simp [runLoop]
        exact hfs2 p hp
      · cases i with
        | zero => simp at hne
        | succ i =>
          rw [List.getD_cons_succ] at hne
          rw [runLoop_cons, runLoop_cons, List.getD_cons_succ, List.getD_cons_succ]
          exact hout2 i (by simpa using hi) hne
    · obtain ⟨hhead, hstep⟩ :=
        processId_congr env env' fs fs' id x hmodel (hother id hx) hfs hx
      obtain ⟨hfs2, hout2⟩ := ih (processId env fs id).1 (processId env' fs' id).1 hstep
      refine ⟨fun p hp => ?_, fun i hi hne => ?_⟩
      · simp [runLoop]
        exact hfs2 p hp
      · cases i with
        | zero => rw [runLoop_cons, runLoop_cons, List.getD_cons_zero, List.getD_cons_zero]; exact hhead
        | succ i =>
          rw [List.getD_cons_succ] at hne
          rw [runLoop_cons, runLoop_cons, List.getD_cons_succ, List.getD_cons_succ]
          exact hout2 i (by simpa using hi) hne

theorem runLoop_preserves (env : RenderEnv) (ids : List String) (fs : FS)
    (p : String) (c : List Nat) (hp : fs p = some c) :
    (runLoop env fs ids).1 p = some c := by
  induction ids generalizing fs with
  | nil => exact hp
  | cons id ids ih =>
    simp [runLoop]
    apply ih
    by_cases hpo : p = outPath id
    · rw [processId_fs_eq_of_isSome env fs id (by rw [← hpo, hp]; rfl)]
      exact hp
    · rw [processId_fs_other env fs id p hpo]
      exact hp

/-! merger -/

/-- JS `s.endsWith(p)`. -/
def jsEndsWith (s p : String) : Bool := p.data.isSuffixOf s.data

/-- A directory entry of the hardcoded-overrides directory. -/
structure DirEntry where
  name : String
  isFile : Bool
  content : List Nat

/-- `mergeHardcodedIcons`: copy every plain `.png` file (case-insensitive
extension) into the output directory, overwriting same-named files. -/
def mergeHardcodedIcons (entries : List DirEntry) (fs : FS) : FS :=
  entries.foldl
    (fun acc e =>
      if e.isFile && jsEndsWith e.name.toLower ".png" then
        fun p => if p = "output/" ++ e.name then some e.content else acc p
      else acc)
    fs

/-- C9: a candidate whose output file already exists takes the
SKIPPED_EXISTS branch and writes nothing, so a pre-existing output file's
content is unchanged by the whole render loop; only the Override Merger
overwrites same-named files (unconditionally). -/
theorem runLoop_no_overwrite (env : RenderEnv) (fs : FS) (ids : List String)
    (id p : String) (c : List Nat)
    (hm : env.hasItemModel id = true) (hex : (fs (outPath id)).isSome = true)
    (hp : fs p = some c) :
    processId env fs id = (fs, .skippedExists)
    ∧ (runLoop env fs ids).1 p = some c
    ∧ (∀ (fs2 : FS) (e : DirEntry), e.isFile = true →
        jsEndsWith e.name.toLower ".png" = true →
        mergeHardcodedIcons [e] fs2 ("output/" ++ e.name) = some e.content) := by
  refine ⟨?_, runLoop_preserves env ids fs p c hp, fun fs2 e he1 he2 => ?_⟩
  · simp [processId, hm, hex]
  · simp [mergeHardcodedIcons, he1, he2]

def envOkA : RenderEnv := ⟨fun _ => true, fun _ => .ok [1]⟩

def envBombA : RenderEnv := ⟨fun _ => true, fun id => if id = "bomb" then .error "boom" else .ok [1]⟩

def fsEmptyA : FS := fun _ => none

def fsExistsA : FS := fun p => if p = outPath "a" then some [9] else none

/-- C8: the loop yields exactly one terminal outcome per registry id in
order; an id with no item model is SKIPPED_NO_MODEL (checked first); and a
thrown render for one id `x` (modelled by `env'` differing from `env` only in
the render result of `x`) is caught, never aborting the batch: every other
id's outcome is unchanged. -/
theorem runLoop_outcomes (env env' : RenderEnv) (fs : FS) (ids : List String) (x : String)
    (hmodel : env'.hasItemModel = env.hasItemModel)
    (hother : ∀ id, id ≠ x → env'.renderItemToPng id = env.renderItemToPng id) :
    (runLoop env fs ids).2.length = ids.length
    ∧ (∀ i (h : i < ids.length), env.hasItemModel (ids.get ⟨i, h⟩) = false →
        (runLoop env fs ids).2.getD i .failed = .skippedNoModel)
    ∧ (∀ i, i < ids.length → ids.getD i "" ≠ x →
        (runLoop env' fs ids).2.getD i .failed = (runLoop env fs ids).2.getD i .failed) :=
  ⟨runLoop_length env fs ids, fun i h hm => runLoop_noModel env fs ids i h hm,
    (runLoop_isolated env env' x hmodel hother ids fs fs (fun _ _ => rfl)).2⟩

/-- Witness for C8 at a concrete batch where rendering of `bomb` throws. -/
theorem runLoop_outcomes_witness :
    (runLoop envOkA fsEmptyA ["a", "bomb", "b"]).2.length = 3
    ∧ (runLoop envBombA fsEmptyA ["a", "bomb", "b"]).2.getD 0 .failed
        = (runLoop envOkA fsEmptyA ["a", "bomb", "b"]).2.getD 0 .failed := by
  have h := runLoop_outcomes envOkA envBombA fsEmptyA ["a", "bomb", "b"] "bomb"
    rfl (fun id hid => by simp [envBombA, envOkA, hid])
  exact ⟨h.1, h.2.2 0 (by norm_num) (by simp)⟩

/-- Witness for C9 at a concrete run where `a.png` pre-exists. -/
theorem runLoop_no_overwrite_witness :
    (runLoop envOkA fsExistsA ["a", "b"]).1 (outPath "a") = some [9] := by
  have h := runLoop_no_overwrite envOkA fsExistsA ["a", "b"] "a" (outPath "a") [9]
    rfl (by simp [fsExistsA]) (by simp [fsExistsA])
  exact h.2.1
